import Mathlib

/-!
Verification of the core algorithmic components of the EternityX1 notebook app.

Part 1: the client-side streaming-response assembler, embedded from the
`while (true) { read; while ((nl = buf.indexOf("\n")) !== -1) ... }` loops of
`src/components/notebook/ChatPanel.tsx` (handleSend, lines 90-118) and
`src/components/notebook/StudioPanel.tsx` (handleAction, lines 140-168).
Both components run the identical algorithm; we embed it once.

Text is modelled as `List Char` (the TextDecoder with streaming mode makes the
byte-to-text layer behave as plain concatenation of decoded text, so chunks can
be modelled at the character level).  The composite JavaScript expression
`JSON.parse(json).choices?.[0]?.delta?.content` together with the truthiness
test `if (c)` is modelled by a parameter `E : Extract`:
`.error ()` models a thrown exception (caught by `catch`),
`.ok none` models a falsy `c` (absent / empty delta), and
`.ok (some c)` models a truthy delta string that gets appended.
All theorems about control flow hold for every such `E`; concrete instances
used in counterexamples agree with `JSON.parse` on the payloads involved.
-/

abbrev Chars := List Char

/-- JavaScript whitespace (the characters relevant to `String.prototype.trim`
on the ASCII payloads handled here). -/
def isWS (c : Char) : Bool :=
  c = ' ' || c = '\t' || c = '\n' || c = '\x0d' || c = '\x0b' || c = '\x0c'

/-- `line.trim()`: drop leading and trailing whitespace. -/
def jsTrimR (l : Chars) : Chars := (l.reverse.dropWhile isWS).reverse

def jsTrim (l : Chars) : Chars := (jsTrimR l).dropWhile isWS

/-- `if (line.endsWith("\r")) line = line.slice(0, -1)`. -/
def stripCR (l : Chars) : Chars :=
  if l.getLast? = some '\x0d' then l.dropLast else l

def dataColon : Chars := ("data: ").data

/-- `!line.startsWith("data: ") || line.startsWith(":") || !line.trim()`:
the line is skipped (`continue`) when this holds. -/
def isSkipped (l : Chars) : Bool :=
  !(l.take 6 = dataColon : Bool) || (l.take 1 = [':'] : Bool) || (jsTrim l).isEmpty

/-- `const json = line.slice(6).trim()`. -/
def payload (l : Chars) : Chars := jsTrim (l.drop 6)

def doneSent : Chars := ("[DONE]").data

/-- The abstracted `JSON.parse(json).choices?.[0]?.delta?.content` / `if (c)`
step (see the module docstring). -/
abbrev Extract := Chars → Except Unit (Option Chars)

/-- Splits a buffer into its complete `\n`-terminated lines (in order) and the
trailing data after the last newline.  This is the decomposition the source's
`while ((nl = buf.indexOf("\n")) !== -1)` loop extracts line by line. -/
def splitLines : Chars → List Chars × Chars
  | [] => ([], [])
  | c :: cs =>
    let p := splitLines cs
    if c = '\n' then ([] :: p.1, p.2)
    else
      match p.1 with
      | [] => ([], c :: p.2)
      | l :: ls => ((c :: l) :: ls, p.2)

/-- Re-joins lines and a trailing remainder back into buffer text. -/
def joinAll (ls : List Chars) (r : Chars) : Chars :=
  ls.foldr (fun l acc => l ++ '\n' :: acc) r

def noNL (l : Chars) : Prop := '\n' ∉ l

/-- State of one streaming request: the accumulated assistant text
(`assistantContent` / `content`), the list of snapshots pushed to the UI
(`setMessages` / `setGeneratedContent` calls), and the pending buffer `buf`. -/
structure AsmState where
  acc : Chars
  snaps : List Chars
  buf : Chars
  deriving Repr, DecidableEq

/-- The inner line-extraction loop, operating on the buffer's complete lines.
Each step mirrors the source body: strip `\r`, skip non-data lines, `break` on
the `[DONE]` sentinel (remaining lines return to the buffer), and on a parse
failure re-prepend `line + "\n"` to the buffer and `break`. -/
def procLines (E : Extract) : Chars → List Chars → List Chars → Chars → AsmState
  | acc, snaps, [], rem => ⟨acc, snaps, rem⟩
  | acc, snaps, l0 :: ls, rem =>
    let l := stripCR l0
    if isSkipped l then procLines E acc snaps ls rem
    else if payload l = doneSent then ⟨acc, snaps, joinAll ls rem⟩
    else
      match E (payload l) with
      | .error _ => ⟨acc, snaps, l ++ '\n' :: joinAll ls rem⟩
      | .ok none => procLines E acc snaps ls rem
      | .ok (some c) => procLines E (acc ++ c) (snaps ++ [acc ++ c]) ls rem

/-- Run the inner loop on the current buffer. -/
def drain (E : Extract) (s : AsmState) : AsmState :=
  procLines E s.acc s.snaps (splitLines s.buf).1 (splitLines s.buf).2

/-- One iteration of the outer `reader.read()` loop: append the decoded chunk
to the buffer, then extract lines. -/
def feed (E : Extract) (s : AsmState) (c : Chars) : AsmState :=
  drain E ⟨s.acc, s.snaps, s.buf ++ c⟩

def initAsm : AsmState := ⟨[], [], []⟩

def runFrom (E : Extract) (s : AsmState) (chunks : List Chars) : AsmState :=
  chunks.foldl (feed E) s

/-- Feeding a whole stream of chunks from the initial state. -/
def runAsm (E : Extract) (chunks : List Chars) : AsmState :=
  runFrom E initAsm chunks

/- ### Basic structural lemmas about line splitting -/

theorem joinAll_append (ls : List Chars) (r c : Chars) :
    joinAll ls r ++ c = joinAll ls (r ++ c) := by
  induction ls with
  | nil => rfl
  | cons l ls ih => simp [joinAll, List.foldr] at ih ⊢; simp [ih]

theorem splitLines_noNL (b : Chars) (h : noNL b) : splitLines b = ([], b) := by
  induction b with
  | nil => rfl
  | cons c cs ih =>
    have hc : c ≠ '\n' := fun hc => h (hc ▸ List.mem_cons_self c cs)
    have hcs : noNL cs := fun hm => h (List.mem_cons_of_mem _ hm)
    simp [splitLines, ih hcs, hc]

theorem splitLines_cons_line (l x : Chars) (h : noNL l) :
    splitLines (l ++ '\n' :: x) = (l :: (splitLines x).1, (splitLines x).2) := by
  induction l with
  | nil => simp [splitLines]
  | cons c cs ih =>
    have hc : c ≠ '\n' := fun hc => h (hc ▸ List.mem_cons_self c cs)
    have hcs : noNL cs := fun hm => h (List.mem_cons_of_mem _ hm)
    simp only [List.cons_append, splitLines, hc, if_false, List.append_eq, ih hcs]

theorem splitLines_joinAll (ls : List Chars) (x : Chars) (h : ∀ l ∈ ls, noNL l) :
    splitLines (joinAll ls x) = (ls ++ (splitLines x).1, (splitLines x).2) := by
  induction ls with
  | nil => simp [joinAll]
  | cons l ls ih =>
    have hl : noNL l := h l (List.mem_cons_self l ls)
    have hls : ∀ m ∈ ls, noNL m := fun m hm => h m (List.mem_cons_of_mem _ hm)
    show splitLines (l ++ '\n' :: joinAll ls x) = _
    rw [splitLines_cons_line _ _ hl, ih hls]
    simp

theorem joinAll_splitLines (b : Chars) :
    joinAll (splitLines b).1 (splitLines b).2 = b := by
  induction b with
  | nil => rfl
  | cons c cs ih =>
    by_cases hc : c = '\n'
    · subst hc; simp [splitLines, joinAll] at ih ⊢; simpa [joinAll] using ih
    · simp only [splitLines, hc, if_false]
      cases hp : (splitLines cs).1 with
      | nil =>
        simp only [hp, joinAll, List.foldr] at ih ⊢
        simpa using ih
      | cons l ls =>
        simp only [hp, joinAll, List.foldr] at ih ⊢
        simpa using ih

theorem splitLines_lines_noNL (b : Chars) : ∀ l ∈ (splitLines b).1, noNL l := by
  induction b with
  | nil => simp [splitLines]
  | cons c cs ih =>
    by_cases hc : c = '\n'
    · subst hc
      intro l hl
      simp only [splitLines] at hl
      rcases List.mem_cons.mp hl with h | h
      · subst h; intro hmem; simp at hmem
      · exact ih l h
    · intro l hl
      simp only [splitLines, hc, if_false] at hl
      cases hp : (splitLines cs).1 with
      | nil => simp [hp] at hl
      | cons m ms =>
        simp only [hp] at hl
        rcases List.mem_cons.mp hl with h | h
        · subst h
          have hm : noNL m := ih m (by simp [hp])
          intro hmem
          rcases List.mem_cons.mp hmem with h' | h'
          · exact hc h'.symm
          · exact hm h'
        · exact ih l (by simp [hp, h])

theorem splitLines_rem_noNL (b : Chars) : noNL (splitLines b).2 := by
  induction b with
  | nil => simp [splitLines, noNL]
  | cons c cs ih =>
    by_cases hc : c = '\n'
    · subst hc; simpa [splitLines] using ih
    · simp only [splitLines, hc, if_false]
      cases hp : (splitLines cs).1 with
      | nil =>
        simp only [hp]
        intro hmem
        rcases List.mem_cons.mp hmem with h | h
        · exact hc h.symm
        · exact ih h
      | cons m ms => simp only [hp]; exact ih

/-- Decomposing the lines of a concatenation: the complete lines of `b` come
first, then the lines formed from `b`'s trailing remainder joined with `t`. -/
theorem splitLines_append (b t : Chars) :
    splitLines (b ++ t)
      = ((splitLines b).1 ++ (splitLines ((splitLines b).2 ++ t)).1,
         (splitLines ((splitLines b).2 ++ t)).2) := by
  conv_lhs => rw [← joinAll_splitLines b]
  rw [joinAll_append, splitLines_joinAll _ _ (splitLines_lines_noNL b)]

/- ### Invariance of line classification under carriage-return stripping

After a parse failure the source re-buffers the already-`\r`-stripped line, so
the same text can be classified twice.  These lemmas show the classification
(skip / `[DONE]` / payload) is unchanged by stripping a trailing `\r`. -/

theorem jsTrimR_concat_ws (x : Chars) (a : Char) (h : isWS a = true) :
    jsTrimR (x ++ [a]) = jsTrimR x := by
  simp [jsTrimR, List.dropWhile, h]

theorem jsTrim_concat_ws (x : Chars) (a : Char) (h : isWS a = true) :
    jsTrim (x ++ [a]) = jsTrim x := by
  simp [jsTrim, jsTrimR_concat_ws x a h]

theorem stripCR_eq_dropLast (l : Chars) (h : l.getLast? = some '\x0d') :
    stripCR l = l.dropLast ∧ l = l.dropLast ++ ['\x0d'] := by
  constructor
  · simp [stripCR, h]
  · exact (List.dropLast_append_getLast? _ (h ▸ rfl : '\x0d' ∈ l.getLast?)).symm

theorem jsTrim_stripCR (l : Chars) : jsTrim (stripCR l) = jsTrim l := by
  by_cases h : l.getLast? = some '\x0d'
  · obtain ⟨h1, h2⟩ := stripCR_eq_dropLast l h
    rw [h1]
    conv_rhs => rw [h2]
    exact (jsTrim_concat_ws _ '\x0d' (by decide)).symm
  · simp [stripCR, h]

theorem payload_stripCR (l : Chars) : payload (stripCR l) = payload l := by
  by_cases h : l.getLast? = some '\x0d'
  · obtain ⟨h1, h2⟩ := stripCR_eq_dropLast l h
    rw [payload, payload, h1]
    conv_rhs => rw [h2]
    rw [List.drop_append_eq_append_drop]
    rcases Nat.lt_or_ge l.dropLast.length 6 with hlt | hge
    · have hne : 6 - l.dropLast.length ≠ 0 := by omega
      rcases Nat.exists_eq_succ_of_ne_zero hne with ⟨k, hk⟩
      have hnil : List.drop (6 - l.dropLast.length) (['\x0d'] : Chars) = [] := by
        rw [hk]; simp
      rw [hnil, List.append_nil]
    · have hz : 6 - l.dropLast.length = 0 := by omega
      rw [hz, List.drop_zero, jsTrim_concat_ws _ '\x0d' (by decide)]
  · simp [stripCR, h]

theorem isSkipped_stripCR_of_false (l : Chars) (h : isSkipped l = false) :
    isSkipped (stripCR l) = false := by
  by_cases hcr : l.getLast? = some '\x0d'
  · obtain ⟨h1, h2⟩ := stripCR_eq_dropLast l hcr
    simp only [isSkipped, Bool.or_eq_false_iff, Bool.not_eq_false',
      decide_eq_true_eq, decide_eq_false_iff_not, List.isEmpty_iff] at h ⊢
    obtain ⟨⟨htake, hcolon⟩, htrim⟩ := h
    have hlen : 6 ≤ l.dropLast.length := by
      have hl6 : 6 ≤ l.length := by
        have := congrArg List.length htake
        simp only [List.length_take, dataColon] at this
        simp at this
        omega
      rcases Nat.lt_or_ge l.dropLast.length 6 with hlt | hge
      · exfalso
        have hlen' : l.length = l.dropLast.length + 1 := by
          conv_lhs => rw [h2]
          simp
        have h6 : l.length = 6 := by omega
        have : l = dataColon := by
          rw [← htake, List.take_of_length_le (by omega)]
        rw [this] at hcr
        simp [dataColon] at hcr
      · exact hge
    rw [h1]
    refine ⟨⟨?_, ?_⟩, ?_⟩
    · rw [← htake]
      conv_rhs => rw [h2]
      rw [List.take_append_eq_append_take]
      rw [Nat.sub_eq_zero_of_le hlen, List.take_zero, List.append_nil]
    · intro hc
      apply hcolon
      conv_lhs => rw [h2]
      rw [List.take_append_eq_append_take]
      rw [Nat.sub_eq_zero_of_le (le_trans (by norm_num) hlen), List.take_zero,
        List.append_nil, hc]
    · have := jsTrim_stripCR l
      rw [h1] at this
      rw [this]
      exact htrim
  · simpa [stripCR, hcr] using h

/- ### Snapshot monotonicity (towards C5) and finalization (towards C1) -/

/-- `b` extends `a` by appending (prefix-extension). -/
def growsTo (a b : Chars) : Prop := ∃ t, b = a ++ t

/-- The last emitted snapshot, or the empty text if none was emitted. -/
def lastOr (xs : List Chars) : Chars := (xs.getLast?).getD []

theorem procLines_inv (E : Extract) (ls : List Chars) :
    ∀ acc snaps rem, List.Chain' growsTo snaps → lastOr snaps = acc →
      List.Chain' growsTo (procLines E acc snaps ls rem).snaps ∧
      lastOr (procLines E acc snaps ls rem).snaps = (procLines E acc snaps ls rem).acc := by
  induction ls with
  | nil => intro acc snaps rem h1 h2; exact ⟨h1, h2⟩
  | cons l0 ls ih =>
    intro acc snaps rem h1 h2
    show List.Chain' growsTo (procLines E acc snaps (l0 :: ls) rem).snaps ∧ _
    rw [procLines]
    by_cases hsk : isSkipped (stripCR l0)
    · simpa [hsk] using ih acc snaps rem h1 h2
    · simp only [hsk, if_false]
      by_cases hdn : payload (stripCR l0) = doneSent
      · simp only [hdn, if_true]; exact ⟨h1, h2⟩
      · simp only [hdn, if_false]
        cases hE : E (payload (stripCR l0)) with
        | error e => exact ⟨h1, h2⟩
        | ok o =>
          cases o with
          | none => exact ih acc snaps rem h1 h2
          | some c =>
            apply ih
            · rw [List.chain'_append]
              refine ⟨h1, List.chain'_singleton _, ?_⟩
              intro x hx y hy
              simp only [List.head?_cons, Option.mem_def, Option.some_inj] at hy
              subst hy
              have : x = acc := by
                rw [← h2, lastOr, hx]; rfl
              subst this
              exact ⟨c, rfl⟩
            · rw [lastOr, List.getLast?_concat]; rfl

theorem runFrom_inv (E : Extract) (chunks : List Chars) :
    ∀ s, List.Chain' growsTo s.snaps → lastOr s.snaps = s.acc →
      List.Chain' growsTo (runFrom E s chunks).snaps ∧
      lastOr (runFrom E s chunks).snaps = (runFrom E s chunks).acc := by
  induction chunks with
  | nil => intro s h1 h2; exact ⟨h1, h2⟩
  | cons c cs ih =>
    intro s h1 h2
    show List.Chain' growsTo (runFrom E (feed E s c) cs).snaps ∧ _
    have := procLines_inv E (splitLines (s.buf ++ c)).1 s.acc s.snaps
      (splitLines (s.buf ++ c)).2 h1 h2
    exact ih (feed E s c) this.1 this.2

/- ### Behaviour of the sentinel `[DONE]` (towards C1) -/

/-- Whether the line-extraction loop, run on these complete lines, reaches the
`[DONE]` sentinel (rather than exhausting the lines, or stopping early at a
parse failure). -/
def hitsDoneL (E : Extract) : List Chars → Bool
  | [] => false
  | l0 :: ls =>
    let l := stripCR l0
    if isSkipped l then hitsDoneL E ls
    else if payload l = doneSent then true
    else
      match E (payload l) with
      | .error _ => false
      | .ok _ => hitsDoneL E ls

/-- Whether processing buffer text `b` reaches a `[DONE]` line. -/
def hitsDone (E : Extract) (b : Chars) : Bool := hitsDoneL E (splitLines b).1

/-- The accumulated text and snapshots produced by the line loop do not depend
on the trailing (incomplete) remainder, which is only carried in the buffer. -/
theorem procLines_rem (E : Extract) (ls : List Chars) :
    ∀ acc snaps rem rem',
      (procLines E acc snaps ls rem).acc = (procLines E acc snaps ls rem').acc ∧
      (procLines E acc snaps ls rem).snaps = (procLines E acc snaps ls rem').snaps := by
  induction ls with
  | nil => intro acc snaps rem rem'; exact ⟨rfl, rfl⟩
  | cons l0 ls ih =>
    intro acc snaps rem rem'
    rw [procLines, procLines]
    by_cases hsk : isSkipped (stripCR l0)
    · simpa [hsk] using ih acc snaps rem rem'
    · simp only [hsk, if_false]
      by_cases hdn : payload (stripCR l0) = doneSent
      · simp [hdn]
      · simp only [hdn, if_false]
        cases hE : E (payload (stripCR l0)) with
        | error e => exact ⟨rfl, rfl⟩
        | ok o => cases o with
          | none => exact ih acc snaps rem rem'
          | some c => exact ih _ _ rem rem'

/-- Once the loop reaches `[DONE]` within lines `ls`, appending further lines
(and any remainder) cannot change the accumulated text or the snapshots. -/
theorem procLines_done_stops (E : Extract) (ls : List Chars)
    (h : hitsDoneL E ls = true) :
    ∀ acc snaps ex rem rem',
      (procLines E acc snaps (ls ++ ex) rem).acc = (procLines E acc snaps ls rem').acc ∧
      (procLines E acc snaps (ls ++ ex) rem).snaps = (procLines E acc snaps ls rem').snaps := by
  induction ls with
  | nil => simp [hitsDoneL] at h
  | cons l0 ls ih =>
    intro acc snaps ex rem rem'
    rw [List.cons_append, procLines, procLines]
    by_cases hsk : isSkipped (stripCR l0)
    · rw [hitsDoneL] at h
      simp only [hsk, if_true] at h ⊢
      exact ih h acc snaps ex rem rem'
    · simp only [hsk, if_false]
      by_cases hdn : payload (stripCR l0) = doneSent
      · simp [hdn]
      · simp only [hdn, if_false]
        rw [hitsDoneL] at h
        simp only [hsk, hdn, if_false] at h
        cases hE : E (payload (stripCR l0)) with
        | error e => rw [hE] at h; simp at h
        | ok o =>
          rw [hE] at h
          cases o with
          | none => exact ih h acc snaps ex rem rem'
          | some c => exact ih h _ _ ex rem rem'

/- ### Reference (single-pass) semantics and chunk-boundary independence -/

def joinChunks : List Chars → Chars
  | [] => []
  | c :: cs => c ++ joinChunks cs

/-- Reference semantics: the accumulated text obtained by processing a list of
complete lines in one pass (what a single-chunk delivery computes), stopping at
`[DONE]` or at the first parse failure. -/
def refAcc (E : Extract) : Chars → List Chars → Chars
  | acc, [] => acc
  | acc, l0 :: ls =>
    let l := stripCR l0
    if isSkipped l then refAcc E acc ls
    else if payload l = doneSent then acc
    else
      match E (payload l) with
      | .error _ => acc
      | .ok none => refAcc E acc ls
      | .ok (some c) => refAcc E (acc ++ c) ls

/-- A complete line carrying the `[DONE]` sentinel. -/
def isDoneLn (l0 : Chars) : Bool :=
  !(isSkipped (stripCR l0)) && decide (payload (stripCR l0) = doneSent)

def hasDoneIn : List Chars → Bool
  | [] => false
  | l0 :: ls => isDoneLn l0 || hasDoneIn ls

theorem hasDoneIn_append (X Y : List Chars) :
    hasDoneIn (X ++ Y) = (hasDoneIn X || hasDoneIn Y) := by
  induction X with
  | nil => simp [hasDoneIn]
  | cons l ls ih => simp [hasDoneIn, ih, Bool.or_assoc]

def allNoNL (L : List Chars) : Prop := ∀ l ∈ L, noNL l

theorem stripCR_noNL (l : Chars) (h : noNL l) : noNL (stripCR l) := by
  rw [stripCR]
  split
  · intro hm
    exact h (List.dropLast_subset l hm)
  · exact h

/-- Shape of the assembler state after the line loop has run: either the buffer
is an incomplete trailing line, or the loop stopped at a parse failure and the
buffer starts with the re-buffered (still failing) line. -/
def GoodState (E : Extract) (s : AsmState) : Prop :=
  noNL s.buf ∨
  ∃ l L R, s.buf = l ++ '\n' :: joinAll L R ∧ noNL l ∧ allNoNL L ∧ noNL R ∧
    isSkipped (stripCR l) = false ∧ payload (stripCR l) ≠ doneSent ∧
    E (payload (stripCR l)) = Except.error ()

/-- Core simulation: on a `[DONE]`-free list of complete lines the line loop
computes the same accumulated text as the single-pass reference semantics, for
every possible continuation `t` of the stream; and it leaves a well-shaped,
still-`[DONE]`-free buffer. -/
theorem procLines_sim (E : Extract) (ls : List Chars) :
    ∀ acc snaps rem, allNoNL ls → noNL rem → hasDoneIn ls = false →
      GoodState E (procLines E acc snaps ls rem) ∧
      (∀ t, refAcc E acc (ls ++ (splitLines (rem ++ t)).1)
          = refAcc E (procLines E acc snaps ls rem).acc
              ((splitLines ((procLines E acc snaps ls rem).buf ++ t)).1)) ∧
      (∀ t, hasDoneIn (ls ++ (splitLines (rem ++ t)).1) = false →
          hasDoneIn ((splitLines ((procLines E acc snaps ls rem).buf ++ t)).1) = false) := by
  induction ls with
  | nil =>
    intro acc snaps rem _ hrem _
    refine ⟨Or.inl hrem, fun t => by simp [procLines], fun t h => by simpa [procLines] using h⟩
  | cons l0 ls ih =>
    intro acc snaps rem hnl hrem hnd
    have hl0 : noNL l0 := hnl l0 (List.mem_cons_self _ _)
    have hls : allNoNL ls := fun m hm => hnl m (List.mem_cons_of_mem _ hm)
    have hnd2 : isDoneLn l0 = false ∧ hasDoneIn ls = false := by
      rw [hasDoneIn] at hnd
      exact Bool.or_eq_false_iff.mp hnd
    by_cases hsk : isSkipped (stripCR l0) = true
    · have hout : procLines E acc snaps (l0 :: ls) rem = procLines E acc snaps ls rem := by
        rw [procLines]; simp [hsk]
      obtain ⟨g1, g2, g3⟩ := ih acc snaps rem hls hrem hnd2.2
      rw [hout]
      refine ⟨g1, fun t => ?_, fun t h => ?_⟩
      · rw [List.cons_append, refAcc]
        simp only [hsk, if_true]
        exact g2 t
      · apply g3
        rw [List.cons_append, hasDoneIn] at h
        exact (Bool.or_eq_false_iff.mp h).2
    · rw [Bool.not_eq_true] at hsk
      by_cases hdn : payload (stripCR l0) = doneSent
      · exfalso
        have : isDoneLn l0 = true := by
          rw [isDoneLn, hsk, hdn]
          simp
        rw [this] at hnd2
        exact absurd hnd2.1 (by decide)
      · cases hE : E (payload (stripCR l0)) with
        | error e =>
          cases e
          have hout : procLines E acc snaps (l0 :: ls) rem
              = ⟨acc, snaps, stripCR l0 ++ '\n' :: joinAll ls rem⟩ := by
            rw [procLines]
            simp only [hsk, Bool.false_eq_true, if_false, hdn, hE]
          rw [hout]
          have hlnl : noNL (stripCR l0) := stripCR_noNL l0 hl0
          have hsk2 : isSkipped (stripCR (stripCR l0)) = false :=
            isSkipped_stripCR_of_false _ hsk
          have hdn2 : payload (stripCR (stripCR l0)) ≠ doneSent := by
            rw [payload_stripCR]; exact hdn
          have hE2 : E (payload (stripCR (stripCR l0))) = Except.error () := by
            rw [payload_stripCR]; exact hE
          have hbuflines : ∀ t, (splitLines ((stripCR l0 ++ '\n' :: joinAll ls rem) ++ t)).1
              = stripCR l0 :: (ls ++ (splitLines (rem ++ t)).1) := by
            intro t
            rw [List.append_assoc, List.cons_append, splitLines_cons_line _ _ hlnl,
              joinAll_append, splitLines_joinAll _ _ hls]
          refine ⟨Or.inr ⟨stripCR l0, ls, rem, rfl, hlnl, hls, hrem, hsk2, hdn2, hE2⟩,
            fun t => ?_, fun t h => ?_⟩
          · rw [List.cons_append, refAcc]
            simp only [hsk, Bool.false_eq_true, if_false, hdn, hE]
            show acc = _
            rw [hbuflines t, refAcc]
            simp only [hsk2, Bool.false_eq_true, if_false, hdn2, hE2]
          · rw [hbuflines t, hasDoneIn]
            rw [List.cons_append, hasDoneIn] at h
            have h2 := (Bool.or_eq_false_iff.mp h).2
            have : isDoneLn (stripCR l0) = false := by
              simp [isDoneLn, hdn2]
            rw [this, h2]
            rfl
        | ok o =>
          cases o with
          | none =>
            have hout : procLines E acc snaps (l0 :: ls) rem = procLines E acc snaps ls rem := by
              rw [procLines]
              simp only [hsk, Bool.false_eq_true, if_false, hdn, hE]
            obtain ⟨g1, g2, g3⟩ := ih acc snaps rem hls hrem hnd2.2
            rw [hout]
            refine ⟨g1, fun t => ?_, fun t h => ?_⟩
            · rw [List.cons_append, refAcc]
              simp only [hsk, Bool.false_eq_true, if_false, hdn, hE]
              exact g2 t
            · apply g3
              rw [List.cons_append, hasDoneIn] at h
              exact (Bool.or_eq_false_iff.mp h).2
          | some c =>
            have hout : procLines E acc snaps (l0 :: ls) rem
                = procLines E (acc ++ c) (snaps ++ [acc ++ c]) ls rem := by
              rw [procLines]
              simp only [hsk, Bool.false_eq_true, if_false, hdn, hE]
            obtain ⟨g1, g2, g3⟩ := ih (acc ++ c) (snaps ++ [acc ++ c]) rem hls hrem hnd2.2
            rw [hout]
            refine ⟨g1, fun t => ?_, fun t h => ?_⟩
            · rw [List.cons_append, refAcc]
              simp only [hsk, Bool.false_eq_true, if_false, hdn, hE]
              exact g2 t
            · apply g3
              rw [List.cons_append, hasDoneIn] at h
              exact (Bool.or_eq_false_iff.mp h).2

/-- Run-level correspondence: starting from a well-shaped state, on a
`[DONE]`-free stream the assembler computes exactly the single-pass reference
result over the concatenated text — however the text is chunked. -/
theorem runFrom_ref (E : Extract) (chunks : List Chars) :
    ∀ s, GoodState E s →
      hasDoneIn (splitLines (s.buf ++ joinChunks chunks)).1 = false →
      (runFrom E s chunks).acc = refAcc E s.acc (splitLines (s.buf ++ joinChunks chunks)).1 := by
  induction chunks with
  | nil =>
    intro s hgood _
    rw [joinChunks, List.append_nil]
    rcases hgood with hnl | ⟨l, L, R, hbuf, hlnl, hLnl, hRnl, hsk, hdn, hE⟩
    · rw [splitLines_noNL _ hnl]
      rfl
    · show s.acc = _
      rw [hbuf, splitLines_cons_line _ _ hlnl, splitLines_joinAll _ _ hLnl,
        splitLines_noNL _ hRnl, refAcc]
      simp only [hsk, Bool.false_eq_true, if_false, hdn, hE]
  | cons c cs ih =>
    intro s hgood hnd
    have hassoc : s.buf ++ joinChunks (c :: cs) = (s.buf ++ c) ++ joinChunks cs := by
      rw [joinChunks, List.append_assoc]
    rw [hassoc] at hnd ⊢
    rw [splitLines_append (s.buf ++ c) (joinChunks cs)] at hnd ⊢
    have hnd1 : hasDoneIn (splitLines (s.buf ++ c)).1 = false ∧
        hasDoneIn (splitLines ((splitLines (s.buf ++ c)).2 ++ joinChunks cs)).1 = false := by
      rw [hasDoneIn_append] at hnd
      exact Bool.or_eq_false_iff.mp hnd
    obtain ⟨g1, g2, g3⟩ := procLines_sim E (splitLines (s.buf ++ c)).1 s.acc s.snaps
      (splitLines (s.buf ++ c)).2 (splitLines_lines_noNL _) (splitLines_rem_noNL _) hnd1.1
    have hfeed : runFrom E s (c :: cs) = runFrom E (feed E s c) cs := rfl
    rw [hfeed]
    have hnd' : hasDoneIn (splitLines ((feed E s c).buf ++ joinChunks cs)).1 = false := by
      apply g3
      rw [hasDoneIn_append, hnd1.1, hnd1.2]
      rfl
    rw [ih (feed E s c) g1 hnd']
    dsimp only
    have hfeedeq : feed E s c
        = procLines E s.acc s.snaps (splitLines (s.buf ++ c)).1 (splitLines (s.buf ++ c)).2 := rfl
    rw [hfeedeq]
    exact (g2 (joinChunks cs)).symm

/- ### Concrete instances for counterexamples and witnesses

`sampleDelta` agrees with `JSON.parse(json).choices?.[0]?.delta?.content` on
every payload below: `jsonX`/`jsonY`/`jsonZ`/`jsonC` are valid envelopes whose
delta content is the one-letter string, and every other payload fed to it in
this file (`\x7b"x":` and `1\x7d`) is malformed JSON on which `JSON.parse`
throws. -/

def jsonX : Chars := ("\x7b\"choices\":[\x7b\"delta\":\x7b\"content\":\"X\"\x7d\x7d]\x7d").data

def jsonY : Chars := ("\x7b\"choices\":[\x7b\"delta\":\x7b\"content\":\"Y\"\x7d\x7d]\x7d").data

def jsonZ : Chars := ("\x7b\"choices\":[\x7b\"delta\":\x7b\"content\":\"Z\"\x7d\x7d]\x7d").data

def jsonC : Chars := ("\x7b\"choices\":[\x7b\"delta\":\x7b\"content\":\"C\"\x7d\x7d]\x7d").data

def sampleDelta : Extract := fun p =>
  if p = jsonX then Except.ok (some [ 'X' ])
  else if p = jsonY then Except.ok (some [ 'Y' ])
  else if p = jsonZ then Except.ok (some [ 'Z' ])
  else if p = jsonC then Except.ok (some [ 'C' ])
  else Except.error ()

def lineDone : Chars := ("data: [DONE]\n").data

def lineX : Chars := dataColon ++ jsonX ++ [ '\n' ]

def lineY : Chars := dataColon ++ jsonY ++ [ '\n' ]

def lineZ : Chars := dataColon ++ jsonZ ++ [ '\n' ]

def lineC : Chars := dataColon ++ jsonC ++ [ '\n' ]

/-- First and second chunk of `lineC` split in the middle of the JSON payload. -/
def chunkCa : Chars := ("data: \x7b\"choices\":[\x7b\"del").data

def chunkCb : Chars := ("ta\":\x7b\"content\":\"C\"\x7d\x7d]\x7d\n").data

/-- A `data:` line whose JSON payload contains an interior newline (the
upstream server emitted a multi-line JSON payload): its first physical line. -/
def lineBadA : Chars := ("data: \x7b\"x\":\n").data

/-- ... and the rest of that payload on the next physical line. -/
def lineBadB : Chars := ("1\x7d\n").data

/- ### C1: termination on the `[DONE]` sentinel -/

/-- C1: once a `[DONE]` line is processed, the line loop stops, so no content
or snapshot is produced from anything later in the same delivered chunk, and a
stream that then closes finalizes with exactly the accumulated text (the last
emitted snapshot, empty if none) without error.  (The claim's stronger form —
that `data:` lines arriving in LATER chunks after `[DONE]` are also ignored —
is false; see the counterexample.) -/
theorem c1_done_termination :
    (∀ (E : Extract) (s : AsmState) (c t : Chars),
        hitsDone E (s.buf ++ c) = true →
        (feed E s (c ++ t)).acc = (feed E s c).acc ∧
        (feed E s (c ++ t)).snaps = (feed E s c).snaps) ∧
    (∀ (E : Extract) (chunks : List Chars),
        (runAsm E chunks).acc = lastOr (runAsm E chunks).snaps) := by
  constructor
  · intro E s c t h
    rw [hitsDone] at h
    have hb : s.buf ++ (c ++ t) = (s.buf ++ c) ++ t := by rw [List.append_assoc]
    have e1 : feed E s (c ++ t) = procLines E s.acc s.snaps
        ((splitLines (s.buf ++ c)).1 ++ (splitLines ((splitLines (s.buf ++ c)).2 ++ t)).1)
        (splitLines ((splitLines (s.buf ++ c)).2 ++ t)).2 := by
      rw [feed, drain]
      dsimp only
      rw [hb, splitLines_append]
    have e2 : feed E s c = procLines E s.acc s.snaps
        (splitLines (s.buf ++ c)).1 (splitLines (s.buf ++ c)).2 := rfl
    rw [e1, e2]
    exact procLines_done_stops E _ h s.acc s.snaps _ _ _
  · intro E chunks
    exact (runFrom_inv E chunks initAsm List.chain'_nil rfl).2.symm

theorem c1_done_termination_witness :
    hitsDone sampleDelta (initAsm.buf ++ lineDone) = true ∧
    (feed sampleDelta initAsm (lineDone ++ lineX)).acc
      = (feed sampleDelta initAsm lineDone).acc := by
  refine ⟨by decide, ?_⟩
  exact (c1_done_termination.1 sampleDelta initAsm lineDone lineX (by decide)).1

/-- C1 counterexample: `[DONE]` delivered in one chunk, then a content line in
a LATER chunk — the code appends that content and emits a snapshot, because the
sentinel's `break` only exits the inner line loop, not the outer read loop. -/
theorem c1_done_termination_cex :
    (runAsm sampleDelta [lineDone]).acc = [] ∧
    (runAsm sampleDelta [lineDone, lineX]).acc = [ 'X' ] ∧
    (runAsm sampleDelta [lineDone, lineX]).snaps = [[ 'X' ]] := by decide

/- ### C5: monotonic accumulation -/

/-- C5: for any extractor and any sequence of chunks, consecutive emitted
snapshots are prefix-extensions: each snapshot equals the previous one with
text appended (the string only grows; earlier content is never rewritten). -/
theorem c5_monotonic_snapshots (E : Extract) (chunks : List Chars) :
    List.Chain' growsTo (runAsm E chunks).snaps :=
  (runFrom_inv E chunks initAsm List.chain'_nil rfl).1

/- ### C6: chunk-boundary independence -/

/-- C6 (amended): for a wire payload containing no `data: [DONE]` line,
delivering it split at arbitrary boundaries yields the same final accumulated
text as delivering it in a single chunk.  (Without the no-`[DONE]` restriction
the claim is false; see the counterexample.) -/
theorem c6_chunk_boundary_amended (E : Extract) (wire : Chars) (chunks : List Chars)
    (hjoin : joinChunks chunks = wire)
    (hnd : hasDoneIn (splitLines wire).1 = false) :
    (runAsm E chunks).acc = (runAsm E [wire]).acc := by
  have g0 : GoodState E initAsm := Or.inl (fun h => absurd h (List.not_mem_nil _))
  have hb1 : initAsm.buf ++ joinChunks chunks = wire := by
    rw [show initAsm.buf = ([] : Chars) from rfl, List.nil_append, hjoin]
  have hb2 : initAsm.buf ++ joinChunks [wire] = wire := by
    rw [show initAsm.buf = ([] : Chars) from rfl, List.nil_append,
      joinChunks, joinChunks, List.append_nil]
  have h1 := runFrom_ref E chunks initAsm g0 (by rw [hb1]; exact hnd)
  have h2 := runFrom_ref E [wire] initAsm g0 (by rw [hb2]; exact hnd)
  rw [runAsm, runAsm, h1, h2, hb1, hb2]

theorem c6_chunk_boundary_witness :
    joinChunks [chunkCa, chunkCb] = lineC ∧
    hasDoneIn (splitLines lineC).1 = false ∧
    (runAsm sampleDelta [chunkCa, chunkCb]).acc = (runAsm sampleDelta [lineC]).acc ∧
    (runAsm sampleDelta [lineC]).acc = [ 'C' ] := by
  refine ⟨by decide, by decide, ?_, by decide⟩
  exact c6_chunk_boundary_amended sampleDelta lineC [chunkCa, chunkCb] (by decide) (by decide)

/-- C6 counterexample: a wire payload with a `[DONE]` line followed by a
content line.  Delivered whole, the content after `[DONE]` stays buffered and
the final text is empty; split at the line boundary, the second chunk is
processed and the final text is `"Y"`. -/
theorem c6_chunk_boundary_cex :
    joinChunks [lineDone, lineY] = lineDone ++ lineY ∧
    (runAsm sampleDelta [lineDone ++ lineY]).acc = [] ∧
    (runAsm sampleDelta [lineDone, lineY]).acc = [ 'Y' ] := by decide

/- ### C7: recovery on JSON parse failure -/

/-- C7 (amended): when JSON parsing of a data line's payload fails, the loop
re-prepends the (CR-stripped) line plus a newline to the buffer and aborts the
current line extraction, leaving the accumulated text and snapshots untouched
(first conjunct) — the stream is not aborted.  However, the re-buffered line is
delimited by that same newline, so when more data arrives it is re-extracted
unchanged and fails again: feeding any further chunk to such a stuck state
never changes the accumulated text or snapshots (second conjunct), i.e. a
multi-line JSON payload permanently stalls the assembler and everything behind
it is dropped rather than recovered. -/
theorem c7_rebuffer :
    (∀ (E : Extract) (acc : Chars) (snaps : List Chars) (l0 : Chars) (ls : List Chars)
        (rem : Chars),
        isSkipped (stripCR l0) = false → payload (stripCR l0) ≠ doneSent →
        E (payload (stripCR l0)) = Except.error () →
        procLines E acc snaps (l0 :: ls) rem
          = ⟨acc, snaps, stripCR l0 ++ '\n' :: joinAll ls rem⟩) ∧
    (∀ (E : Extract) (s : AsmState) (l : Chars) (L : List Chars) (R c : Chars),
        s.buf = l ++ '\n' :: joinAll L R → noNL l → allNoNL L → noNL R →
        isSkipped (stripCR l) = false → payload (stripCR l) ≠ doneSent →
        E (payload (stripCR l)) = Except.error () →
        (feed E s c).acc = s.acc ∧ (feed E s c).snaps = s.snaps) := by
  constructor
  · intro E acc snaps l0 ls rem hsk hdn hE
    rw [procLines]
    simp only [hsk, Bool.false_eq_true, if_false, hdn, hE]
  · intro E s l L R c hbuf hlnl hLnl hRnl hsk hdn hE
    have hb : s.buf ++ c = l ++ '\n' :: joinAll L (R ++ c) := by
      rw [hbuf]
      simp [List.append_assoc, joinAll_append]
    have hlines : splitLines (s.buf ++ c)
        = (l :: (L ++ (splitLines (R ++ c)).1), (splitLines (R ++ c)).2) := by
      rw [hb, splitLines_cons_line _ _ hlnl, splitLines_joinAll _ _ hLnl]
    have hfeed : feed E s c = procLines E s.acc s.snaps
        (l :: (L ++ (splitLines (R ++ c)).1)) ((splitLines (R ++ c)).2) := by
      rw [feed, drain]
      dsimp only
      rw [hlines]
    have hstep : procLines E s.acc s.snaps
        (l :: (L ++ (splitLines (R ++ c)).1)) ((splitLines (R ++ c)).2)
        = ⟨s.acc, s.snaps, stripCR l ++ '\n'
            :: joinAll (L ++ (splitLines (R ++ c)).1) ((splitLines (R ++ c)).2)⟩ := by
      rw [procLines]
      simp only [hsk, Bool.false_eq_true, if_false, hdn, hE]
    rw [hfeed, hstep]
    exact ⟨rfl, rfl⟩

theorem c7_rebuffer_witness :
    procLines sampleDelta [ 'A' ] [[ 'A' ]] [("data: \x7b\"x\":").data] (("1\x7d").data)
      = ⟨[ 'A' ], [[ 'A' ]],
          stripCR (("data: \x7b\"x\":").data) ++ '\n' :: joinAll [] (("1\x7d").data)⟩ ∧
    (feed sampleDelta ⟨[ 'A' ], [[ 'A' ]],
        ("data: \x7b\"x\":").data ++ '\n' :: joinAll [] []⟩ lineBadB).acc = [ 'A' ] := by
  constructor
  · exact c7_rebuffer.1 sampleDelta [ 'A' ] [[ 'A' ]] (("data: \x7b\"x\":").data) []
      (("1\x7d").data) (by decide) (by decide) rfl
  · exact (c7_rebuffer.2 sampleDelta _ (("data: \x7b\"x\":").data) [] [] lineBadB rfl
      (by show '\n' ∉ _; decide) (fun m hm => absurd hm (List.not_mem_nil _))
      (fun hm => absurd hm (List.not_mem_nil _))
      (by decide) (by decide) rfl).1

/-- C7 counterexample: an upstream multi-line JSON payload
(`data: \x7b"x":` + newline + `1\x7d` + newline) is never successfully
re-parsed — the re-buffered first line fails forever — so it and the perfectly
well-formed content line behind it are silently dropped: the run yields empty
accumulated text and no snapshots, while the content line alone yields `"Z"`. -/
theorem c7_rebuffer_cex :
    (runAsm sampleDelta [lineBadA, lineBadB, lineZ]).acc = [] ∧
    (runAsm sampleDelta [lineBadA, lineBadB, lineZ]).snaps = [] ∧
    (runAsm sampleDelta [lineZ]).acc = [ 'Z' ] := by decide

/-!
Part 2: the presentation playback engine, embedded from
`src/components/notebook/VideoPlayer.tsx`.  React state and refs become the
fields of `PlayerState`; timers and speech-synthesis callbacks become explicit
events.  `speechSynthesis.cancel()` removes the in-flight utterance (its
callbacks never fire); `clearInterval` removes the progress timer.  The
`useEffect` on `[currentSlide, isPlaying, speakSlide]` (line 108-110) is folded
into each transition that changes one of its dependencies: when it would fire
with `isPlaying` true, the transition ends with `speakSlide` of the current
slide (for `goToSlide`, which also calls `speakSlide` directly, the double call
is idempotent and is modelled as one application).  The 300ms/500ms
auto-advance `setTimeout`s are folded into the completion transitions. -/

inductive SlideColor
  | blue | purple | green | orange | pink | cyan
  deriving DecidableEq, Repr

/-- A slide as received from the generation service. -/
structure Slide where
  title : String
  points : List String
  narration : String
  color : SlideColor
  deriving DecidableEq, Repr

/-- Which interval is installed in `intervalRef`: the muted/missing-slide
fallback interval (which auto-advances, capturing `index`), or the narration
progress tick (which only updates progress). -/
inductive TimerMode
  | fallback (index : Int)
  | narration
  deriving DecidableEq, Repr

/-- The player's state: `currentSlide`/`isPlaying`/`isMuted`/`slideProgress`
are the `useState` hooks; `startTime`/`duration` are `startTimeRef` /
`durationRef`; `timer` is `intervalRef`; `speaking` is the in-flight utterance
(with the slide index its `onend`/`onerror` closures captured). -/
structure PlayerState where
  currentSlide : Int
  isPlaying : Bool
  isMuted : Bool
  slideProgress : ℚ
  timer : Option TimerMode
  startTime : ℚ
  duration : ℚ
  speaking : Option Int
  deriving DecidableEq, Repr

/-- `slides[index]` for a JavaScript number index: out-of-range gives
`undefined` (`none`). -/
def sget (slides : List Slide) (i : Int) : Option Slide :=
  if i < 0 then none else slides.get? i.toNat

/-- Number of maximal non-whitespace runs. -/
def runsAux : Bool → Chars → Nat
  | _, [] => 0
  | inRun, c :: cs =>
    if isWS c then runsAux false cs
    else (if inRun then 0 else 1) + runsAux true cs

/-- `text.split(/\s+/).length`: the number of runs of non-whitespace, plus one
for the empty leading (resp. trailing) element produced when the text starts
(resp. ends) with whitespace; the empty string gives one element. -/
def jsWordCount (l : Chars) : Nat :=
  match l with
  | [] => 1
  | c :: _ =>
    runsAux false l + (if isWS c then 1 else 0) +
      (if (l.getLast?.map isWS) = some true then 1 else 0)

/-- `stopSpeech` (VideoPlayer.tsx:41-45): cancel speech, clear the interval,
reset progress to 0. -/
def stopSpeech (s : PlayerState) : PlayerState :=
  { s with speaking := none, timer := none, slideProgress := 0 }

/-- `speakSlide(index)` (VideoPlayer.tsx:47-106): stop current speech; if
muted or the slide is missing, install the 4000ms fallback interval; otherwise
estimate the narration duration from the word count at 140 wpm (floor 3000ms),
install the progress tick and start the utterance. -/
def speakSlide (slides : List Slide) (now : ℚ) (index : Int) (s : PlayerState) : PlayerState :=
  let s1 := stopSpeech s
  match sget slides index with
  | none =>
    { s1 with duration := 4000, startTime := now, timer := some (TimerMode.fallback index) }
  | some sl =>
    if s1.isMuted then
      { s1 with duration := 4000, startTime := now, timer := some (TimerMode.fallback index) }
    else
      { s1 with
        duration := max ((jsWordCount sl.narration.data : ℚ) / 140 * 60000) 3000,
        startTime := now, timer := some TimerMode.narration, speaking := some index }

/-- The shared auto-advance step run after a slide completes (the bodies of
the fallback interval's `setTimeout` at lines 59-66 and of `utterance.onend`'s
`setTimeout` at lines 90-97), including the effect re-running `speakSlide`
when still playing. -/
def advanceFrom (slides : List Slide) (now : ℚ) (i : Int) (s : PlayerState) : PlayerState :=
  if i < (slides.length : Int) - 1 then
    let s1 := { s with currentSlide := i + 1 }
    if s1.isPlaying then speakSlide slides now (i + 1) s1 else s1
  else
    { s with isPlaying := false, slideProgress := 0 }

/-- One firing of the installed interval at time `now`: the fallback interval
updates progress and, on reaching 1, clears itself and auto-advances; the
narration interval only updates progress. -/
def tickAt (slides : List Slide) (now : ℚ) (s : PlayerState) : PlayerState :=
  match s.timer with
  | none => s
  | some (TimerMode.fallback i) =>
    let progress := min ((now - s.startTime) / s.duration) 1
    let s1 := { s with slideProgress := progress }
    if 1 ≤ progress then advanceFrom slides now i { s1 with timer := none } else s1
  | some TimerMode.narration =>
    { s with slideProgress := min ((now - s.startTime) / s.duration) 1 }

/-- `utterance.onend` (VideoPlayer.tsx:87-98): clear the interval, set
progress to 1, then advance or stop. -/
def narrEndAt (slides : List Slide) (now : ℚ) (s : PlayerState) : PlayerState :=
  match s.speaking with
  | none => s
  | some i =>
    advanceFrom slides now i { s with timer := none, slideProgress := 1, speaking := none }

/-- `utterance.onerror` (VideoPlayer.tsx:100-103): clear the interval and stop
playing — no advance, no progress reset, no surfaced error. -/
def narrErrorAt (s : PlayerState) : PlayerState :=
  match s.speaking with
  | none => s
  | some _ => { s with timer := none, isPlaying := false, speaking := none }

/-- `handlePlay` (line 133) plus the `[currentSlide, isPlaying, speakSlide]`
effect: setting `isPlaying` true re-runs the effect, which starts narration of
the current slide; if already playing, the state update is a no-op. -/
def playAt (slides : List Slide) (now : ℚ) (s : PlayerState) : PlayerState :=
  if s.isPlaying then s
  else speakSlide slides now s.currentSlide { s with isPlaying := true }

/-- `handlePause` (line 134): stop playing, cancel speech, clear the interval
— progress is left as it is. -/
def pauseP (s : PlayerState) : PlayerState :=
  { s with isPlaying := false, speaking := none, timer := none }

/-- `handleStop` (line 135): stop playing, `stopSpeech`, slide back to 0. -/
def stopP (s : PlayerState) : PlayerState :=
  { s with isPlaying := false, speaking := none, timer := none,
           slideProgress := 0, currentSlide := 0 }

/-- `goToSlide` (VideoPlayer.tsx:137-142): silently ignore out-of-range
indices; otherwise stop speech, move to the slide, and if playing begin its
narration. -/
def goToSlideAt (slides : List Slide) (now : ℚ) (i : Int) (s : PlayerState) : PlayerState :=
  if i < 0 ∨ (slides.length : Int) ≤ i then s
  else
    let s1 := { (stopSpeech s) with currentSlide := i }
    if s.isPlaying then speakSlide slides now i s1 else s1

/-- `toggleMute` (VideoPlayer.tsx:144-147): flip `isMuted`, cancelling the
in-flight utterance when toggling to muted; flipping `isMuted` recreates the
`speakSlide` callback, so the effect re-fires and restarts the current slide
when playing. -/
def toggleMuteAt (slides : List Slide) (now : ℚ) (s : PlayerState) : PlayerState :=
  let s1 := { s with isMuted := !s.isMuted,
                     speaking := if s.isMuted then s.speaking else none }
  if s1.isPlaying then speakSlide slides now s1.currentSlide s1 else s1

/-- External events driving the player: user controls plus the internal timer
and narration callbacks. -/
inductive PEvent
  | play (now : ℚ)
  | pause
  | stop
  | goTo (now : ℚ) (i : Int)
  | tick (now : ℚ)
  | narrEnd (now : ℚ)
  | narrError
  | mute (now : ℚ)

def stepP (slides : List Slide) (s : PlayerState) : PEvent → PlayerState
  | .play now => playAt slides now s
  | .pause => pauseP s
  | .stop => stopP s
  | .goTo now i => goToSlideAt slides now i s
  | .tick now => tickAt slides now s
  | .narrEnd now => narrEndAt slides now s
  | .narrError => narrErrorAt s
  | .mute now => toggleMuteAt slides now s

/-- Initial state (`useState(0)`, `useState(false)`, `useState(false)`,
`useState(0)`, `durationRef = 5000`). -/
def initPlayer : PlayerState := ⟨0, false, false, 0, none, 0, 5000, none⟩

def runPlayer (slides : List Slide) (evs : List PEvent) : PlayerState :=
  evs.foldl (stepP slides) initPlayer

/- ### Helper facts about speakSlide -/

theorem speakSlide_spec (slides : List Slide) (now : ℚ) (j : Int) (s : PlayerState) :
    (speakSlide slides now j s).currentSlide = s.currentSlide ∧
    (speakSlide slides now j s).slideProgress = 0 ∧
    (speakSlide slides now j s).timer ≠ none ∧
    (speakSlide slides now j s).isPlaying = s.isPlaying ∧
    (speakSlide slides now j s).startTime = now := by
  cases hsg : sget slides j <;> by_cases hm : s.isMuted <;>
    simp [speakSlide, stopSpeech, hsg, hm]

/- ### Concrete slides and states for the player claims -/

def slideHello : Slide := ⟨"One", [], "hello world", SlideColor.blue⟩

def slidesTwo : List Slide := [slideHello, slideHello]

def slidesThree : List Slide := [slideHello, slideHello, slideHello]

/-- Last slide of a 3-slide muted presentation, mid-fallback-timer. -/
def stFall : PlayerState := ⟨2, true, true, 1, some (TimerMode.fallback 2), 8000, 4000, none⟩

/-- First slide of an audible presentation, narration in flight. -/
def stSpeak : PlayerState := ⟨0, true, false, 1, some TimerMode.narration, 0, 3000, some 0⟩

/-- Audible narration of slide 0 half way through (progress frozen at 1/2). -/
def stMid : PlayerState := ⟨0, true, false, 1 / 2, some TimerMode.narration, 0, 3000, some 0⟩

/- ### C2: slide completion -/

/-- C2 (amended): when the current slide completes — the muted fallback timer
elapsing (`tickAt` with the fallback interval and elapsed ≥ duration) or
narration finishing (`narrEndAt`) — then, if a next slide exists
(`i < slideCount - 1`), the player advances to `i + 1` (and, if playing, the
new slide starts with progress reset to 0 and a timer installed); otherwise it
stops: `isPlaying` becomes false and `slideProgress` resets to 0, while
`currentSlideIndex` KEEPS its last value (it is not reset to 0 — resetting to
0 is what the original claim wrongly asserts; see the counterexample). -/
theorem c2_slide_completion :
    (∀ (slides : List Slide) (now : ℚ) (s : PlayerState) (i : Int),
        s.timer = some (TimerMode.fallback i) →
        1 ≤ (now - s.startTime) / s.duration →
        ((i < (slides.length : Int) - 1 →
            (tickAt slides now s).currentSlide = i + 1 ∧
            (s.isPlaying = true → (tickAt slides now s).slideProgress = 0 ∧
              (tickAt slides now s).timer ≠ none)) ∧
         (¬ i < (slides.length : Int) - 1 →
            (tickAt slides now s).isPlaying = false ∧
            (tickAt slides now s).slideProgress = 0 ∧
            (tickAt slides now s).currentSlide = s.currentSlide))) ∧
    (∀ (slides : List Slide) (now : ℚ) (s : PlayerState) (i : Int),
        s.speaking = some i →
        ((i < (slides.length : Int) - 1 →
            (narrEndAt slides now s).currentSlide = i + 1 ∧
            (s.isPlaying = true → (narrEndAt slides now s).slideProgress = 0 ∧
              (narrEndAt slides now s).timer ≠ none)) ∧
         (¬ i < (slides.length : Int) - 1 →
            (narrEndAt slides now s).isPlaying = false ∧
            (narrEndAt slides now s).slideProgress = 0 ∧
            (narrEndAt slides now s).currentSlide = s.currentSlide))) := by
  constructor
  · intro slides now s i htimer hprog
    have hcond : (1 : ℚ) ≤ min ((now - s.startTime) / s.duration) 1 :=
      le_min hprog le_rfl
    have htick : tickAt slides now s
        = advanceFrom slides now i
            { s with slideProgress := min ((now - s.startTime) / s.duration) 1,
                     timer := none } := by
      rw [tickAt]
      simp only [htimer]
      rw [if_pos hcond]
    rw [htick]
    constructor
    · intro hlt
      rw [advanceFrom, if_pos hlt]
      by_cases hp : s.isPlaying
      · rw [if_pos hp]
        obtain ⟨sc, sp, st, _, _⟩ := speakSlide_spec slides now (i + 1) _
        refine ⟨by rw [sc], fun _ => ⟨sp, st⟩⟩
      · rw [if_neg hp]
        exact ⟨rfl, fun hpt => absurd hpt hp⟩
    · intro hge
      rw [advanceFrom, if_neg hge]
      exact ⟨rfl, rfl, rfl⟩
  · intro slides now s i hspeak
    have hend : narrEndAt slides now s
        = advanceFrom slides now i
            { s with timer := none, slideProgress := 1, speaking := none } := by
      rw [narrEndAt]
      simp only [hspeak]
    rw [hend]
    constructor
    · intro hlt
      rw [advanceFrom, if_pos hlt]
      by_cases hp : s.isPlaying
      · rw [if_pos hp]
        obtain ⟨sc, sp, st, _, _⟩ := speakSlide_spec slides now (i + 1) _
        refine ⟨by rw [sc], fun _ => ⟨sp, st⟩⟩
      · rw [if_neg hp]
        exact ⟨rfl, fun hpt => absurd hpt hp⟩
    · intro hge
      rw [advanceFrom, if_neg hge]
      exact ⟨rfl, rfl, rfl⟩

theorem c2_slide_completion_witness :
    (tickAt slidesThree 12000 stFall).isPlaying = false ∧
    (tickAt slidesThree 12000 stFall).slideProgress = 0 ∧
    (tickAt slidesThree 12000 stFall).currentSlide = stFall.currentSlide ∧
    (narrEndAt slidesTwo 3000 stSpeak).currentSlide = 1 := by
  have h1 := (c2_slide_completion.1 slidesThree 12000 stFall 2 rfl
    (by norm_num [stFall])).2 (by decide)
  have h2 := (c2_slide_completion.2 slidesTwo 3000 stSpeak 0 rfl).1 (by decide)
  exact ⟨h1.1, h1.2.1, h1.2.2, h2.1⟩

/-- C2 counterexample (Scenario C): 3 muted slides, `play()` at t=0, fallback
timer firing at 4000/8000/12000ms.  After the third slide's timer elapses the
player is stopped with progress 0, but `currentSlideIndex` is 2, not 0 — the
claim's "currentSlideIndex reset to 0" is false. -/
theorem c2_slide_completion_cex :
    (runPlayer slidesThree [PEvent.mute 0, PEvent.play 0, PEvent.tick 4000,
        PEvent.tick 8000, PEvent.tick 12000])
      = ⟨2, false, true, 0, none, 8000, 4000, none⟩ ∧
    (runPlayer slidesThree [PEvent.mute 0, PEvent.play 0, PEvent.tick 4000,
        PEvent.tick 8000, PEvent.tick 12000]).currentSlide ≠ 0 := by
  constructor
  · norm_num [runPlayer, stepP, playAt, toggleMuteAt, speakSlide, stopSpeech, tickAt,
      advanceFrom, sget, initPlayer, min_def, slidesThree, slideHello]
  · norm_num [runPlayer, stepP, playAt, toggleMuteAt, speakSlide, stopSpeech, tickAt,
      advanceFrom, sget, initPlayer, min_def, slidesThree, slideHello]

/- ### C3: pause / resume -/

/-- C3 (amended): `pause()` freezes `slideProgress` at its current value
(leaving the slide unchanged), but a subsequent `play()` RESTARTS the current
slide from the beginning rather than resuming: the effect re-runs `speakSlide`,
whose `stopSpeech` resets `slideProgress` to 0 and restarts the progress clock
at the new `now` (a timer is freshly installed).  The original claim's
"resumes without resetting progress, continuing from elapsed-so-far" is false;
see the counterexample. -/
theorem c3_pause_restart :
    (∀ s : PlayerState, (pauseP s).slideProgress = s.slideProgress ∧
        (pauseP s).isPlaying = false ∧ (pauseP s).currentSlide = s.currentSlide) ∧
    (∀ (slides : List Slide) (now : ℚ) (s : PlayerState), s.isPlaying = false →
        (playAt slides now s).isPlaying = true ∧
        (playAt slides now s).slideProgress = 0 ∧
        (playAt slides now s).startTime = now ∧
        (playAt slides now s).timer ≠ none ∧
        (playAt slides now s).currentSlide = s.currentSlide) := by
  constructor
  · intro s
    exact ⟨rfl, rfl, rfl⟩
  · intro slides now s hp
    have hcond : ¬ (s.isPlaying = true) := by rw [hp]; decide
    rw [playAt, if_neg hcond]
    obtain ⟨sc, sp, st, spl, sst⟩ :=
      speakSlide_spec slides now s.currentSlide { s with isPlaying := true }
    exact ⟨spl, sp, sst, st, sc⟩

theorem c3_pause_restart_witness :
    (pauseP stMid).slideProgress = 1 / 2 ∧
    (playAt slidesTwo 2000 (pauseP stMid)).slideProgress = 0 ∧
    (playAt slidesTwo 2000 (pauseP stMid)).startTime = 2000 ∧
    (playAt slidesTwo 2000 (pauseP stMid)).currentSlide = 0 := by
  have h1 := (c3_pause_restart.1 stMid).1
  have h2 := c3_pause_restart.2 slidesTwo 2000 (pauseP stMid) rfl
  exact ⟨h1, h2.2.1, h2.2.2.1, h2.2.2.2.2⟩

/-- C3 counterexample: audible 2-slide deck, `play()` at 0 (duration estimate
3000ms), tick at 1500ms → progress 1/2; `pause()` freezes it at 1/2; `play()`
at 2000ms resets progress to 0 and restarts the clock at 2000 — a restart, not
a resume from elapsed-so-far. -/
theorem c3_pause_restart_cex :
    (runPlayer slidesTwo [PEvent.play 0, PEvent.tick 1500, PEvent.pause]).slideProgress
      = 1 / 2 ∧
    (runPlayer slidesTwo [PEvent.play 0, PEvent.tick 1500, PEvent.pause,
        PEvent.play 2000]).slideProgress = 0 ∧
    (runPlayer slidesTwo [PEvent.play 0, PEvent.tick 1500, PEvent.pause,
        PEvent.play 2000]).startTime = 2000 := by
  have hwc : jsWordCount (("hello world").data) = 2 := by decide
  refine ⟨?_, ?_, ?_⟩ <;>
    norm_num [runPlayer, stepP, playAt, pauseP, speakSlide, stopSpeech, tickAt,
      advanceFrom, sget, initPlayer, min_def, max_def, slidesTwo, slideHello, hwc]

/- ### C4: narration failure -/

/-- C4 (amended): a narration error is absorbed without surfacing anything,
but it is NOT treated like narration completion: `onerror` only clears the
interval and sets `isPlaying := false` — it does not advance to the next
slide, does not reset `slideProgress`, and leaves `currentSlide` unchanged.
With no utterance in flight the event is a no-op. -/
theorem c4_narration_error :
    (∀ (s : PlayerState) (i : Int), s.speaking = some i →
        narrErrorAt s = { s with isPlaying := false, timer := none, speaking := none }) ∧
    (∀ s : PlayerState, s.speaking = none → narrErrorAt s = s) := by
  constructor
  · intro s i h
    rw [narrErrorAt]
    simp only [h]
  · intro s h
    rw [narrErrorAt]
    simp only [h]

theorem c4_narration_error_witness :
    narrErrorAt stSpeak
      = { stSpeak with isPlaying := false, timer := none, speaking := none } ∧
    narrErrorAt initPlayer = initPlayer := by
  exact ⟨c4_narration_error.1 stSpeak 0 rfl, c4_narration_error.2 initPlayer rfl⟩

/-- C4 counterexample: from the same mid-narration state on a 2-slide deck, a
narration error leaves the player on slide 0 and stopped, while narration
completion advances to slide 1 and keeps playing — the two are not treated
identically, contradicting the claim. -/
theorem c4_narration_error_cex :
    (runPlayer slidesTwo [PEvent.play 0, PEvent.narrError]).currentSlide = 0 ∧
    (runPlayer slidesTwo [PEvent.play 0, PEvent.narrError]).isPlaying = false ∧
    (runPlayer slidesTwo [PEvent.play 0, PEvent.narrEnd 3000]).currentSlide = 1 ∧
    (runPlayer slidesTwo [PEvent.play 0, PEvent.narrEnd 3000]).isPlaying = true := by
  have hwc : jsWordCount (("hello world").data) = 2 := by decide
  refine ⟨?_, ?_, ?_, ?_⟩ <;>
    norm_num [runPlayer, stepP, playAt, narrErrorAt, narrEndAt, speakSlide, stopSpeech,
      advanceFrom, sget, initPlayer, min_def, max_def, slidesTwo, slideHello, hwc]

/- ### C8: goToSlide bounds -/

/-- C8: `goToSlide(i)` with `i < 0` or `i ≥ slideCount` returns before doing
anything — the whole state is unchanged (no transition, no cancellation); for
in-range `i` it moves to slide `i` with progress reset to 0. -/
theorem c8_goToSlide_bounds :
    (∀ (slides : List Slide) (now : ℚ) (i : Int) (s : PlayerState),
        i < 0 ∨ (slides.length : Int) ≤ i → goToSlideAt slides now i s = s) ∧
    (∀ (slides : List Slide) (now : ℚ) (i : Int) (s : PlayerState),
        0 ≤ i → i < (slides.length : Int) →
        (goToSlideAt slides now i s).currentSlide = i ∧
        (goToSlideAt slides now i s).slideProgress = 0) := by
  constructor
  · intro slides now i s h
    rw [goToSlideAt, if_pos h]
  · intro slides now i s h0 hlen
    have hcond : ¬ (i < 0 ∨ (slides.length : Int) ≤ i) := by
      push_neg
      exact ⟨h0, hlen⟩
    rw [goToSlideAt, if_neg hcond]
    by_cases hp : s.isPlaying
    · rw [if_pos hp]
      obtain ⟨sc, sp, _, _, _⟩ := speakSlide_spec slides now i _
      exact ⟨by rw [sc], sp⟩
    · rw [if_neg hp]
      exact ⟨rfl, rfl⟩

theorem c8_goToSlide_bounds_witness :
    goToSlideAt slidesTwo 0 (-1) stMid = stMid ∧
    goToSlideAt slidesTwo 0 2 stMid = stMid ∧
    (goToSlideAt slidesTwo 0 1 stMid).currentSlide = 1 ∧
    (goToSlideAt slidesTwo 0 1 stMid).slideProgress = 0 := by
  refine ⟨?_, ?_, ?_, ?_⟩
  · exact c8_goToSlide_bounds.1 slidesTwo 0 (-1) stMid (Or.inl (by decide))
  · exact c8_goToSlide_bounds.1 slidesTwo 0 2 stMid (Or.inr (by decide))
  · exact (c8_goToSlide_bounds.2 slidesTwo 0 1 stMid (by decide) (by decide)).1
  · exact (c8_goToSlide_bounds.2 slidesTwo 0 1 stMid (by decide) (by decide)).2

/- ### C10: empty presentation -/

/-- `if (!slide) return null` (VideoPlayer.tsx:38,162): the component renders
nothing exactly when the slide lookup comes back `undefined`. -/
def rendersNull (slides : List Slide) (s : PlayerState) : Bool :=
  (sget slides s.currentSlide).isNone

theorem sget_nil (i : Int) : sget [] i = none := by
  rw [sget]
  split
  · rfl
  · exact List.get?_nil

theorem speakSlide_nil (now : ℚ) (j : Int) (s : PlayerState) :
    speakSlide [] now j s
      = { (stopSpeech s) with duration := 4000, startTime := now,
                              timer := some (TimerMode.fallback j) } := by
  rw [speakSlide, sget_nil]

/-- Invariant of every state reachable on a zero-slide presentation. -/
def EmptyInv (s : PlayerState) : Prop :=
  s.currentSlide = 0 ∧ s.speaking = none ∧
    (s.timer = none ∨ s.timer = some (TimerMode.fallback 0))

theorem emptyStep (e : PEvent) (s : PlayerState) (h : EmptyInv s) :
    EmptyInv (stepP [] s e) := by
  obtain ⟨h0, hsp, htm⟩ := h
  cases e with
  | play now =>
    show EmptyInv (playAt [] now s)
    rw [playAt]
    by_cases hp : s.isPlaying
    · rw [if_pos hp]
      exact ⟨h0, hsp, htm⟩
    · rw [if_neg hp, h0, speakSlide_nil]
      exact ⟨rfl, rfl, Or.inr rfl⟩
  | pause => exact ⟨h0, rfl, Or.inl rfl⟩
  | stop => exact ⟨rfl, rfl, Or.inl rfl⟩
  | goTo now i =>
    show EmptyInv (goToSlideAt [] now i s)
    have : goToSlideAt [] now i s = s := by
      rw [goToSlideAt, if_pos]
      rcases lt_or_ge i 0 with hi | hi
      · exact Or.inl hi
      · exact Or.inr (by simpa using hi)
    rw [this]
    exact ⟨h0, hsp, htm⟩
  | tick now =>
    show EmptyInv (tickAt [] now s)
    rcases htm with ht | ht
    · rw [tickAt]
      simp only [ht]
      exact ⟨h0, hsp, Or.inl ht⟩
    · rw [tickAt]
      simp only [ht]
      by_cases hc : (1 : ℚ) ≤ min ((now - s.startTime) / s.duration) 1
      · rw [if_pos hc]
        have hno : ¬ ((0 : Int) < (([] : List Slide).length : Int) - 1) := by decide
        rw [advanceFrom, if_neg hno]
        exact ⟨h0, hsp, Or.inl rfl⟩
      · rw [if_neg hc]
        exact ⟨h0, hsp, Or.inr rfl⟩
  | narrEnd now =>
    show EmptyInv (narrEndAt [] now s)
    rw [narrEndAt]
    simp only [hsp]
    exact ⟨h0, hsp, htm⟩
  | narrError =>
    show EmptyInv (narrErrorAt s)
    rw [narrErrorAt]
    simp only [hsp]
    exact ⟨h0, hsp, htm⟩
  | mute now =>
    show EmptyInv (toggleMuteAt [] now s)
    rw [toggleMuteAt]
    have hs1 : ({ s with isMuted := !s.isMuted,
                         speaking := if s.isMuted then s.speaking else none }
          : PlayerState).currentSlide = 0 := h0
    by_cases hp : s.isPlaying
    · rw [if_pos hp, hs1, speakSlide_nil]
      exact ⟨rfl, rfl, Or.inr rfl⟩
    · rw [if_neg hp]
      refine ⟨h0, ?_, htm⟩
      by_cases hm : s.isMuted
      · simp only [hm, if_true]
        exact hsp
      · simp [hm]

theorem emptyRun (evs : List PEvent) :
    ∀ s, EmptyInv s → EmptyInv (evs.foldl (stepP []) s) := by
  induction evs with
  | nil => intro s h; exact h
  | cons e es ih => intro s h; exact ih (stepP [] s e) (emptyStep e s h)

/-- C10: with an empty slides array, the slide lookup always yields `none`,
every `goToSlide(i)` is a no-op (every index is out of range), and for every
sequence of operations the player stays on index 0 with the component
rendering nothing (`return null`) — all operations are total, so no exception
is ever thrown. -/
theorem c10_empty_slides :
    (∀ i : Int, sget [] i = none) ∧
    (∀ (now : ℚ) (i : Int) (s : PlayerState), goToSlideAt [] now i s = s) ∧
    (∀ evs : List PEvent, (runPlayer [] evs).currentSlide = 0 ∧
        rendersNull [] (runPlayer [] evs) = true) := by
  refine ⟨sget_nil, fun now i s => ?_, fun evs => ?_⟩
  · rw [goToSlideAt, if_pos]
    rcases lt_or_ge i 0 with hi | hi
    · exact Or.inl hi
    · exact Or.inr (by simpa using hi)
  · have h := emptyRun evs initPlayer ⟨rfl, rfl, Or.inl rfl⟩
    refine ⟨h.1, ?_⟩
    rw [rendersNull, sget_nil]
    rfl

/- ### C9: request-failure message

Embedded from the non-2xx handling of the three fetch sites.  The second
argument models the attempt to read the response body as JSON and extract its
`error` field: `.error ()` is `resp.json()` rejecting (unreadable/unparsable
body), `.ok none` is a parsed body without an `error` field (`err.error`
undefined), `.ok (some m)` is a parsed body with `error` string `m` (falsy
when empty). -/

/-- ChatPanel.tsx:84-87: `resp.json().catch(() => ({ error: "Request failed" }))`
then `err.error || `Error ${status}``. -/
def chatErrMsg (status : Nat) (body : Except Unit (Option String)) : String :=
  match body with
  | .error _ => "Request failed"
  | .ok none => "Error " ++ toString status
  | .ok (some m) => if m = "" then "Error " ++ toString status else m

/-- StudioPanel.tsx:96-98 (handleVideoAction):
`resp.json().catch(() => ({ error: `Error ${status}` }))` then
`err.error || `Error ${status}``. -/
def videoErrMsg (status : Nat) (body : Except Unit (Option String)) : String :=
  match body with
  | .error _ => "Error " ++ toString status
  | .ok none => "Error " ++ toString status
  | .ok (some m) => if m = "" then "Error " ++ toString status else m

/-- StudioPanel.tsx:137 (handleAction): `throw new Error(`Error ${status}`)` —
the body is never read. -/
def actionErrMsg (status : Nat) : String := "Error " ++ toString status

/-- C9 (amended): every non-2xx response is treated as a failure, but the
three request sites differ.  ChatPanel reads a JSON `{error}` body and falls
back to the fixed message `"Request failed"` when the body cannot be read or
parsed (only a parsed body whose `error` field is falsy yields
`"Error <status>"`).  StudioPanel's slide-generation request also reads the
body and does fall back to `"Error <status>"`.  StudioPanel's streaming
`handleAction` never reads the body and always uses `"Error <status>"`. -/
theorem c9_error_message :
    (∀ status : Nat, chatErrMsg status (Except.error ()) = "Request failed") ∧
    (∀ (status : Nat) (m : String), m ≠ "" →
        chatErrMsg status (Except.ok (some m)) = m ∧
        videoErrMsg status (Except.ok (some m)) = m) ∧
    (∀ status : Nat, chatErrMsg status (Except.ok none) = "Error " ++ toString status ∧
        chatErrMsg status (Except.ok (some "")) = "Error " ++ toString status) ∧
    (∀ status : Nat, videoErrMsg status (Except.error ()) = "Error " ++ toString status) ∧
    (∀ status : Nat, actionErrMsg status = "Error " ++ toString status) := by
  refine ⟨fun _ => rfl, fun status m hm => ?_, fun _ => ⟨rfl, ?_⟩, fun _ => rfl, fun _ => rfl⟩
  · rw [chatErrMsg, videoErrMsg]
    rw [if_neg hm]
    exact ⟨rfl, rfl⟩
  · rw [chatErrMsg, if_pos rfl]

theorem c9_error_message_witness :
    chatErrMsg 404 (Except.ok (some "boom")) = "boom" ∧
    videoErrMsg 404 (Except.ok (some "boom")) = "boom" := by
  have h := c9_error_message.2.1 404 "boom" (by decide)
  exact h

/-- C9 counterexample: a 500 response whose body cannot be read: ChatPanel's
message is the fixed `"Request failed"`, not the claimed generic
`"Error 500"` containing the status code. -/
theorem c9_error_message_cex :
    chatErrMsg 500 (Except.error ()) = "Request failed" ∧
    chatErrMsg 500 (Except.error ()) ≠ "Error " ++ toString 500 := by
  constructor
  · rfl
  · decide
